import Mathlib

/-!
Shallow embedding of `scripts/analyze-excel-formulas.py`.

The script opens a workbook with `openpyxl.load_workbook(file_path, data_only=False)`,
prints the sheet list, and then for each sheet iterates `sheet.iter_rows()` cell by
cell.  Non-`None` cells are classified: a string starting with `=` is recorded in the
`formulas` dict and a second `load_workbook(file_path, data_only=True)` handle is
opened to look up the cached calculated value, which is stored in `values`; any
other value not in `['', None]` is stored in `values` directly.  The report then
prints the values whose text contains one of a fixed keyword list, and all formulas
together with `values[addr]` when present.  Finally `wb.close()` is called on the
primary handle.

The embedding models cell contents (`CVal`), sheets as row-major grids of cells,
Python dicts as association lists with in-place overwrite (`dinsert`), the console
output as a list of structured `Line`s, the two `load_workbook` calls as an `Env`
offering an optional primary and an optional secondary (data-only) workbook, and
the run result including how many workbook handles were acquired and closed.
-/

set_option autoImplicit false

namespace ExcelScan

/-- A cell's raw content as seen through `cell.value`: `None`, a string, a number,
or a boolean.  (Numbers are modelled as integers; the script only tests
`isinstance(value, str)` and equality with `''`/`None`, so the numeric tower is
irrelevant to its control flow.) -/
inductive CVal where
  | vNone
  | vStr (s : String)
  | vNum (n : Int)
  | vBool (b : Bool)
  deriving DecidableEq, Repr

/-- One spreadsheet cell: its 1-based row and column and its raw content. -/
structure Cell where
  row : Nat
  col : Nat
  value : CVal
  deriving DecidableEq, Repr

/-- A sheet: a name and the grid that `sheet.iter_rows()` yields, as a list of rows,
each row a list of cells. -/
structure Sheet where
  name : String
  rows : List (List Cell)
  deriving DecidableEq, Repr

/-- A workbook: an ordered list of sheets (`wb.sheetnames` order). -/
structure Workbook where
  sheets : List Sheet
  deriving DecidableEq, Repr

/-- Models `openpyxl.utils.get_column_letter`, fuel-structured so that it reduces:
column 1 ↦ "A", 26 ↦ "Z", 27 ↦ "AA". -/
def column_letter_aux : Nat → Nat → String
  | 0, _ => ""
  | _ + 1, 0 => ""
  | fuel + 1, n + 1 => column_letter_aux fuel (n / 26) ++ String.singleton (Char.ofNat (65 + n % 26))

/-- The `cell.column_letter` rendering of a 1-based column index. -/
def column_letter (n : Nat) : String :=
  column_letter_aux n n

/-- The address string `cell_addr = f"{cell.column_letter}{cell.row}"`. -/
def cell_addr (c : Cell) : String :=
  column_letter c.col ++ toString c.row

/-- Python `s.startswith('=')`: the first character of `s` is the formula marker. -/
def startsWithMarker (s : String) : Bool :=
  match s.data with
  | [] => false
  | c :: _ => c = '='

/-- The test `isinstance(cell.value, str) and cell.value.startswith('=')`. -/
def isFormulaVal : CVal → Bool
  | .vStr s => startsWithMarker s
  | _ => false

/-- The raw text of a (string) cell value; `""` on non-strings (only applied to
formula cells, which are strings). -/
def rawText : CVal → String
  | .vStr s => s
  | _ => ""

/-- Python dict assignment `d[k] = v` on an association list: overwrite in place if
the key is present (keeping its position), else append. -/
def dinsert {α : Type} (k : String) (v : α) : List (String × α) → List (String × α)
  | [] => [(k, v)]
  | (k₁, v₁) :: rest => if k₁ = k then (k, v) :: rest else (k₁, v₁) :: dinsert k v rest

/-- Python dict lookup `d[k]` / membership `k in d`: first matching key. -/
def dlookup {α : Type} (k : String) : List (String × α) → Option α
  | [] => none
  | (k₁, v₁) :: rest => if k₁ = k then some v₁ else dlookup k rest

/-- The keys of an association list. -/
def keysOf {α : Type} (l : List (String × α)) : List String :=
  l.map Prod.fst

/-- The subscript `wb_data[sheet_name]`: look up a sheet by name. -/
def findSheet (wb : Workbook) (name : String) : Option Sheet :=
  wb.sheets.find? (fun sh => sh.name = name)

/-- The lookup `sheet_data[cell_addr].value`: the value of the cell at a given address in a
sheet (openpyxl returns an empty cell, i.e. `None`, when no such cell is stored). -/
def lookupAddr (sh : Sheet) (addr : String) : CVal :=
  match sh.rows.flatten.find? (fun c => cell_addr c = addr) with
  | some c => c.value
  | none => .vNone

/-- The hardcoded keyword list of the script. -/
def keywords : List String :=
  ["tan", "diameter", "id", "wall", "wt", "circ", "area", "grid", "hour",
   "segment", "clock", "shell", "dome", "paut", "pec", "tofd", "length",
   "axis", "access", "scan", "analysis", "report", "total"]

/-- Python's `str.lower()` (character-wise lowercasing). -/
def strToLower (s : String) : String :=
  ⟨s.data.map Char.toLower⟩

/-- Python's substring test `sub in s` on strings (for non-empty `sub`): some
suffix of `s` starts with `sub`. -/
def strContains (sub s : String) : Bool :=
  s.data.tails.any (fun t => sub.data.isPrefixOf t)

/-- The test `isinstance(val, str) and any(keyword in val.lower() for keyword in keywords)`. -/
def keywordMatched : CVal → Bool
  | .vStr s => keywords.any (fun k => strContains k (strToLower s))
  | _ => false

/-- The classification the spec calls Formula Cell / Literal Cell. -/
inductive CellClass where
  | formulaCell
  | literalCell
  deriving DecidableEq, Repr

/-- The classification performed by the `if cell.value is not None / if ... / elif
cell.value not in ['', None]` branch: `none` means the cell is skipped. -/
def classify (v : CVal) : Option CellClass :=
  if v = .vNone then none
  else if isFormulaVal v then some .formulaCell
  else if v = .vStr "" then none
  else some .literalCell

/-- Non-empty content in the spec's sense: neither absent (`None`) nor the empty
string. -/
def nonEmptyVal (v : CVal) : Bool :=
  v ≠ .vNone && v ≠ .vStr ""

/-- The two `load_workbook` calls seen as an environment: the primary
(`data_only=False`) load and the secondary (`data_only=True`) load each either
succeed with a workbook or fail. -/
structure Env where
  primary : Option Workbook
  secondary : Option Workbook
  deriving DecidableEq, Repr

/-- Run-aborting errors: a failed `load_workbook` (missing/corrupt file) or a
failed `wb_data[sheet_name]` subscript. -/
inductive RunErr where
  | sourceUnavailable
  | keyError
  deriving DecidableEq, Repr

/-- The per-sheet mutable state of the cell loop: the `formulas` and `values`
dicts, plus a count of secondary workbook handles acquired so far. -/
structure LoopSt where
  formulas : List (String × String)
  values : List (String × CVal)
  acquired : Nat
  deriving DecidableEq, Repr

/-- One console print of the script, structured. -/
inductive Line where
  | sheetList (names : List String)
  | eqDelim
  | sheetHeader (name : String)
  | dashDelim
  | keyCellsHeader
  | keywordEntry (addr : String) (val : CVal)
  | formulasHeader
  | formulaEntry (addr : String) (formula : String)
  | valueLine (val : CVal)
  deriving DecidableEq, Repr

/-- The body of the cell loop for one cell (lines 24–37 of the script).  Returns
the updated state and `some e` when an exception would propagate.  Note that
`formulas[cell_addr] = cell.value` happens before the secondary `load_workbook`,
so the formula entry is recorded even when that load fails. -/
def processCell (sec : Option Workbook) (sname : String) (st : LoopSt) (c : Cell) :
    LoopSt × Option RunErr :=
  if c.value = .vNone then (st, none)
  else
    let addr := cell_addr c
    if isFormulaVal c.value then
      let st₁ := { st with formulas := dinsert addr (rawText c.value) st.formulas }
      match sec with
      | none => (st₁, some .sourceUnavailable)
      | some wbd =>
        let st₂ := { st₁ with acquired := st₁.acquired + 1 }
        match findSheet wbd sname with
        | none => (st₂, some .keyError)
        | some shd =>
          ({ st₂ with values := dinsert addr (lookupAddr shd addr) st₂.values }, none)
    else if c.value = .vStr "" then (st, none)
    else ({ st with values := dinsert addr c.value st.values }, none)

/-- The cell loop over a sheet's cells in iteration order (rows flattened), from a
given state; stops at the first propagating exception. -/
def scanCells (sec : Option Workbook) (sname : String) :
    List Cell → LoopSt → LoopSt × Option RunErr
  | [], st => (st, none)
  | c :: cs, st =>
    match processCell sec sname st c with
    | (st₁, some e) => (st₁, some e)
    | (st₁, none) => scanCells sec sname cs st₁

/-- The keyword report section (lines 40–46): entries of `values` whose value is a
string containing a keyword, in dict order. -/
def keywordSection (values : List (String × CVal)) : List Line :=
  (values.filter (fun p => keywordMatched p.2)).map (fun p => .keywordEntry p.1 p.2)

/-- The formula report section (lines 48–53): each formula with its address, then
`-> Value: ...` when `addr in values`. -/
def formulaSection (formulas : List (String × String)) (values : List (String × CVal)) :
    List Line :=
  (formulas.map (fun p =>
    Line.formulaEntry p.1 p.2 ::
      (match dlookup p.1 values with
       | some v => [Line.valueLine v]
       | none => []))).flatten

/-- The per-sheet report sections printed after the cell loop. -/
def sheetSections (st : LoopSt) : List Line :=
  [Line.keyCellsHeader] ++ keywordSection st.values ++
    [Line.formulasHeader] ++ formulaSection st.formulas st.values

/-- The loop over sheets (lines 13–55): per sheet, print the header, run the cell
loop (which may abort), then print the sections.  Accumulates output and the
number of handles acquired. -/
def runSheets (sec : Option Workbook) :
    List Sheet → List Line → Nat → List Line × Nat × Option RunErr
  | [], out, acq => (out, acq, none)
  | sh :: rest, out, acq =>
    let out₁ := out ++ [Line.sheetHeader sh.name, Line.dashDelim]
    match scanCells sec sh.name sh.rows.flatten ⟨[], [], 0⟩ with
    | (st, some e) => (out₁, acq + st.acquired, some e)
    | (st, none) =>
      runSheets sec rest (out₁ ++ sheetSections st ++ [Line.eqDelim]) (acq + st.acquired)

/-- The result of one execution of the script: the console output emitted before
termination, the propagating error if any, and how many workbook handles were
acquired and closed. -/
structure RunResult where
  output : List Line
  err : Option RunErr
  acquired : Nat
  closed : Nat
  deriving DecidableEq, Repr

/-- The whole script: primary `load_workbook` (abort with no output on failure),
sheet-list print, sheet loop, and `wb.close()` — which is reached only when no
exception propagated. -/
def runScript (env : Env) : RunResult :=
  match env.primary with
  | none => ⟨[], some .sourceUnavailable, 0, 0⟩
  | some wb =>
    let out₀ := [Line.sheetList (wb.sheets.map Sheet.name), Line.eqDelim]
    match runSheets env.secondary wb.sheets out₀ 1 with
    | (out, acq, some e) => ⟨out, some e, acq, 0⟩
    | (out, acq, none) => ⟨out, none, acq, 1⟩

/-! ### Derived notions used by the verification -/

/-- The address printed on a report entry line (keyword or formula entry). -/
def lineAddr : Line → Option String
  | .keywordEntry a _ => some a
  | .formulaEntry a _ => some a
  | _ => none

/-- The sheet name announced by a `SHEET: ...` header line, if any. -/
def headerName : Line → Option String
  | .sheetHeader n => some n
  | _ => none

/-- Whether a line is a keyword-matched report entry. -/
def isKeywordLine : Line → Bool
  | .keywordEntry _ _ => true
  | _ => false

/-- The number of formula cells of a sheet (cells whose raw value is a string
starting with `=`). -/
def countFormulaCells (sh : Sheet) : Nat :=
  sh.rows.flatten.countP (fun c => isFormulaVal c.value)

/-- Two consecutive executions of the script on the same, unmodified sources.
The script keeps no state across runs (the dicts are rebuilt from scratch and
nothing is persisted), so both executions are the same function of the loaded
workbook views. -/
def runTwice (env : Env) : RunResult × RunResult :=
  (runScript env, runScript env)

/-- Row-major precedence on cells: earlier row, or same row and earlier column. -/
def lexLtCell (a b : Cell) : Prop :=
  a.row < b.row ∨ (a.row = b.row ∧ a.col < b.col)

instance : DecidableRel lexLtCell := fun a b => by
  unfold lexLtCell; infer_instance

/-- Predicate `rowOk r j cs`: the cells `cs` all carry row number `r` and consecutive
column numbers `j, j + 1, …` — the shape `openpyxl`'s `iter_rows` yields for one
row. -/
def rowOk (r : Nat) : Nat → List Cell → Bool
  | _, [] => true
  | j, c :: cs => (decide (c.row = r) && decide (c.col = j)) && rowOk r (j + 1) cs

/-- Predicate `gridOk i rows`: the rows carry consecutive row numbers `i, i + 1, …`, each
row well-formed from column 1. -/
def gridOk : Nat → List (List Cell) → Bool
  | _, [] => true
  | i, row :: rest => rowOk i 1 row && gridOk (i + 1) rest

/-- A sheet's grid as `openpyxl.iter_rows` presents it: the list position of a
row/cell determines its 1-based row/column coordinates. -/
def wellFormedSheet (sh : Sheet) : Bool :=
  gridOk 1 sh.rows

/-! ### Concrete workbooks used as counterexample / witness inputs -/

/-- A workbook whose single sheet holds one formula cell `A1 = "=TOTAL(A2)"`
whose raw text contains the keyword `total`. -/
def wbRawKeyword : Workbook := ⟨[⟨"S", [[⟨1, 1, .vStr "=TOTAL(A2)"⟩]]⟩]⟩

/-- The data-only view of `wbRawKeyword` with no cached value for `A1`. -/
def wbRawKeywordData : Workbook := ⟨[⟨"S", [[⟨1, 1, .vNone⟩]]⟩]⟩

/-- Both views for the raw-keyword formula workbook. -/
def envRawKeyword : Env := ⟨some wbRawKeyword, some wbRawKeywordData⟩

/-- A two-sheet workbook: sheet `S1` holds a keyword-matching literal, sheet
`S2` holds a formula cell. -/
def wbTwoSheets : Workbook :=
  ⟨[⟨"S1", [[⟨1, 1, .vStr "tank diameter"⟩]]⟩, ⟨"S2", [[⟨1, 1, .vStr "=B1*2"⟩]]⟩]⟩

/-- Environment with `wbTwoSheets` loaded as primary while the secondary (data-only) load fails:
the file disappeared between the initial load and the per-formula reload. -/
def envSecondaryGone : Env := ⟨some wbTwoSheets, none⟩

/-- A workbook whose single sheet holds one formula cell `A1 = "=B1*2"`. -/
def wbOneFormula : Workbook := ⟨[⟨"S", [[⟨1, 1, .vStr "=B1*2"⟩]]⟩]⟩

/-- The data-only view of `wbOneFormula`, with cached value 24 for `A1`. -/
def wbOneFormulaData : Workbook := ⟨[⟨"S", [[⟨1, 1, .vNum 24⟩]]⟩]⟩

/-- The data-only view of `wbOneFormula` with no cached value for `A1`. -/
def wbOneFormulaNoVal : Workbook := ⟨[⟨"S", [[⟨1, 1, .vNone⟩]]⟩]⟩

/-- Both views for the one-formula workbook, cached value present. -/
def envOneFormula : Env := ⟨some wbOneFormula, some wbOneFormulaData⟩

/-- Both views for the one-formula workbook, cached value absent. -/
def envOneFormulaNoVal : Env := ⟨some wbOneFormula, some wbOneFormulaNoVal⟩

/-! ### Dictionary lemmas -/

@[simp]
theorem keysOf_nil {α : Type} : keysOf ([] : List (String × α)) = [] := rfl

@[simp]
theorem keysOf_cons {α : Type} (p : String × α) (l : List (String × α)) :
    keysOf (p :: l) = p.1 :: keysOf l := rfl

theorem dlookup_dinsert {α : Type} (k a : String) (v : α) (l : List (String × α)) :
    dlookup a (dinsert k v l) = if a = k then some v else dlookup a l := by
  induction l with
  | nil => simp [dinsert, dlookup, eq_comm]
  | cons p rest ih =>
    obtain ⟨k₁, v₁⟩ := p
    by_cases h1 : k₁ = k <;> by_cases h2 : k₁ = a <;>
      simp_all [dinsert, dlookup, eq_comm]

theorem mem_keys_dinsert {α : Type} (k a : String) (v : α) (l : List (String × α)) :
    a ∈ keysOf (dinsert k v l) ↔ a = k ∨ a ∈ keysOf l := by
  induction l with
  | nil => simp [dinsert]
  | cons p rest ih =>
    obtain ⟨k₁, v₁⟩ := p
    by_cases h1 : k₁ = k
    · simp_all [dinsert]
      try tauto
    · simp_all [dinsert]
      try tauto

theorem dlookup_isSome_of_mem_keys {α : Type} (a : String) (l : List (String × α))
    (h : a ∈ keysOf l) : ∃ v, dlookup a l = some v := by
  induction l with
  | nil => simp at h
  | cons p rest ih =>
    obtain ⟨k₁, v₁⟩ := p
    by_cases h1 : k₁ = a
    · exact ⟨v₁, by simp [dlookup, h1]⟩
    · simp only [keysOf_cons, List.mem_cons] at h
      obtain ⟨v, hv⟩ := ih (h.resolve_left (fun hh => h1 hh.symm))
      exact ⟨v, by simp [dlookup, h1, hv]⟩

/-! ### Cell-level lemmas -/

theorem isFormulaVal_eq_true {v : CVal} (h : isFormulaVal v = true) :
    ∃ s, v = .vStr s ∧ startsWithMarker s = true := by
  cases v with
  | vStr s => exact ⟨s, rfl, h⟩
  | vNone => simp [isFormulaVal] at h
  | vNum n => simp [isFormulaVal] at h
  | vBool b => simp [isFormulaVal] at h

theorem startsWith_marker_ne_empty {s : String} (h : startsWithMarker s = true) : s ≠ "" := by
  intro he
  subst he
  exact absurd h (by decide)

theorem nonEmptyVal_of_formula {v : CVal} (h : isFormulaVal v = true) :
    nonEmptyVal v = true := by
  obtain ⟨s, rfl, hst⟩ := isFormulaVal_eq_true h
  have hne := startsWith_marker_ne_empty hst
  simp [nonEmptyVal, hne]

theorem processCell_skip (sec : Option Workbook) (sname : String) (st : LoopSt) (c : Cell)
    (h : c.value = .vNone ∨ c.value = .vStr "") :
    processCell sec sname st c = (st, none) := by
  rcases h with h | h
  · simp [processCell, h]
  · have hf : isFormulaVal (CVal.vStr "") = false := by decide
    simp [processCell, h, hf]

theorem processCell_formula (sec : Option Workbook) (sname : String) (st : LoopSt) (c : Cell)
    (wbd : Workbook) (shd : Sheet) (s : String)
    (hsec : sec = some wbd) (hsh : findSheet wbd sname = some shd)
    (hv : c.value = .vStr s) (hst : startsWithMarker s = true) :
    processCell sec sname st c =
      (⟨dinsert (cell_addr c) s st.formulas,
        dinsert (cell_addr c) (lookupAddr shd (cell_addr c)) st.values,
        st.acquired + 1⟩, none) := by
  subst hsec
  simp [processCell, hv, isFormulaVal, hst, hsh, rawText]

theorem processCell_formula_noSec (sname : String) (st : LoopSt) (c : Cell)
    (hf : isFormulaVal c.value = true) :
    processCell none sname st c =
      ({ st with formulas := dinsert (cell_addr c) (rawText c.value) st.formulas },
        some .sourceUnavailable) := by
  obtain ⟨s, hv, hst⟩ := isFormulaVal_eq_true hf
  simp [processCell, hv, isFormulaVal, hst, rawText]

theorem processCell_formula_noSheet (sname : String) (st : LoopSt) (c : Cell) (wbd : Workbook)
    (hf : isFormulaVal c.value = true) (hsh : findSheet wbd sname = none) :
    processCell (some wbd) sname st c =
      (⟨dinsert (cell_addr c) (rawText c.value) st.formulas, st.values, st.acquired + 1⟩,
        some .keyError) := by
  obtain ⟨s, hv, hst⟩ := isFormulaVal_eq_true hf
  simp [processCell, hv, isFormulaVal, hst, hsh, rawText]

theorem processCell_literal (sec : Option Workbook) (sname : String) (st : LoopSt) (c : Cell)
    (h1 : c.value ≠ .vNone) (hf : isFormulaVal c.value = false) (h2 : c.value ≠ .vStr "") :
    processCell sec sname st c =
      ({ st with values := dinsert (cell_addr c) c.value st.values }, none) := by
  simp [processCell, h1, hf, h2]

theorem classify_formula_iff (v : CVal) :
    classify v = some .formulaCell ↔ ∃ s, v = .vStr s ∧ startsWithMarker s = true := by
  constructor
  · intro h
    by_cases h0 : v = .vNone
    · simp [classify, h0] at h
    · by_cases hf : isFormulaVal v = true
      · exact isFormulaVal_eq_true hf
      · by_cases h2 : v = .vStr ""
        · subst h2; exact absurd h (by decide)
        · simp [classify, h0, hf, h2] at h
  · rintro ⟨s, rfl, hst⟩
    simp [classify, isFormulaVal, hst]

theorem classify_literal_iff (v : CVal) :
    classify v = some .literalCell ↔ nonEmptyVal v = true ∧ isFormulaVal v = false := by
  by_cases h0 : v = .vNone
  · simp [classify, nonEmptyVal, h0]
  · by_cases hf : isFormulaVal v = true
    · simp [classify, h0, hf]
    · by_cases h2 : v = .vStr ""
      · simp [classify, nonEmptyVal, h0, hf, h2]
      · simp [classify, nonEmptyVal, h0, hf, h2]

/-! ### Cell-loop lemmas -/

theorem scanCells_nil (sec : Option Workbook) (sname : String) (st : LoopSt) :
    scanCells sec sname [] st = (st, none) := rfl

theorem scanCells_cons_ok (sec : Option Workbook) (sname : String) (st st₁ : LoopSt)
    (c : Cell) (cs : List Cell) (hp : processCell sec sname st c = (st₁, none)) :
    scanCells sec sname (c :: cs) st = scanCells sec sname cs st₁ := by
  simp [scanCells, hp]

theorem scanCells_cons_err (sec : Option Workbook) (sname : String) (st st₁ : LoopSt)
    (c : Cell) (cs : List Cell) (e : RunErr) (hp : processCell sec sname st c = (st₁, some e)) :
    scanCells sec sname (c :: cs) st = (st₁, some e) := by
  simp [scanCells, hp]

theorem processCell_no_err (wbd : Workbook) (shd : Sheet) (sname : String) (st : LoopSt)
    (c : Cell) (hsh : findSheet wbd sname = some shd) :
    (processCell (some wbd) sname st c).2 = none := by
  by_cases h0 : c.value = .vNone
  · simp [processCell_skip _ _ _ _ (Or.inl h0)]
  · by_cases hf : isFormulaVal c.value = true
    · obtain ⟨s, hv, hst⟩ := isFormulaVal_eq_true hf
      simp [processCell_formula _ _ _ _ _ _ _ rfl hsh hv hst]
    · by_cases h2 : c.value = .vStr ""
      · simp [processCell_skip _ _ _ _ (Or.inr h2)]
      · simp [processCell_literal _ _ _ _ h0 (by simpa using hf) h2]

theorem scanCells_no_err (wbd : Workbook) (shd : Sheet) (sname : String)
    (hsh : findSheet wbd sname = some shd) :
    ∀ (cells : List Cell) (st : LoopSt), (scanCells (some wbd) sname cells st).2 = none := by
  intro cells
  induction cells with
  | nil => intro st; simp [scanCells_nil]
  | cons c cs ih =>
    intro st
    rcases hp : processCell (some wbd) sname st c with ⟨st₁, e⟩
    have he : e = none := by
      have := processCell_no_err wbd shd sname st c hsh
      rw [hp] at this
      exact this
    subst he
    rw [scanCells_cons_ok _ _ _ _ _ _ hp]
    exact ih st₁

theorem scanCells_acquired (sec : Option Workbook) (sname : String) :
    ∀ (cells : List Cell) (st st₁ : LoopSt),
      scanCells sec sname cells st = (st₁, none) →
      st₁.acquired = st.acquired + cells.countP (fun c => isFormulaVal c.value) := by
  intro cells
  induction cells with
  | nil =>
    intro st st₁ h
    rw [scanCells_nil] at h
    cases h
    simp
  | cons c cs ih =>
    intro st st₁ h
    rcases hp : processCell sec sname st c with ⟨st₂, e⟩
    cases e with
    | some err => rw [scanCells_cons_err _ _ _ _ _ _ _ hp] at h; simp at h
    | none =>
      rw [scanCells_cons_ok _ _ _ _ _ _ hp] at h
      have hacq := ih st₂ st₁ h
      by_cases h0 : c.value = .vNone
      · rw [processCell_skip _ _ _ _ (Or.inl h0)] at hp
        cases hp
        have hfv : isFormulaVal c.value = false := by simp [h0, isFormulaVal]
        simp [List.countP_cons, hfv, hacq]
      · by_cases hf : isFormulaVal c.value = true
        · obtain ⟨s, hv, hst⟩ := isFormulaVal_eq_true hf
          cases sec with
          | none => rw [processCell_formula_noSec _ _ _ hf] at hp; simp at hp
          | some wbd =>
            cases hsh : findSheet wbd sname with
            | none => rw [processCell_formula_noSheet _ _ _ _ hf hsh] at hp; simp at hp
            | some shd =>
              rw [processCell_formula _ _ _ _ _ _ _ rfl hsh hv hst] at hp
              cases hp
              simp [List.countP_cons, hf, hacq]
              omega
        · by_cases h2 : c.value = .vStr ""
          · rw [processCell_skip _ _ _ _ (Or.inr h2)] at hp
            cases hp
            simp [List.countP_cons, hf, hacq]
          · rw [processCell_literal _ _ _ _ h0 (by simpa using hf) h2] at hp
            cases hp
            simp [List.countP_cons, hf, hacq]

theorem scanCells_keys_sub (sec : Option Workbook) (sname : String) :
    ∀ (cells : List Cell) (st st₁ : LoopSt),
      scanCells sec sname cells st = (st₁, none) →
      (∀ a, a ∈ keysOf st.formulas → a ∈ keysOf st.values) →
      ∀ a, a ∈ keysOf st₁.formulas → a ∈ keysOf st₁.values := by
  intro cells
  induction cells with
  | nil =>
    intro st st₁ h hsub
    rw [scanCells_nil] at h
    cases h
    exact hsub
  | cons c cs ih =>
    intro st st₁ h hsub
    rcases hp : processCell sec sname st c with ⟨st₂, e⟩
    cases e with
    | some err => rw [scanCells_cons_err _ _ _ _ _ _ _ hp] at h; simp at h
    | none =>
      rw [scanCells_cons_ok _ _ _ _ _ _ hp] at h
      refine ih st₂ st₁ h ?_
      by_cases h0 : c.value = .vNone
      · rw [processCell_skip _ _ _ _ (Or.inl h0)] at hp
        cases hp
        exact hsub
      · by_cases hf : isFormulaVal c.value = true
        · obtain ⟨s, hv, hst⟩ := isFormulaVal_eq_true hf
          cases sec with
          | none => rw [processCell_formula_noSec _ _ _ hf] at hp; simp at hp
          | some wbd =>
            cases hsh : findSheet wbd sname with
            | none => rw [processCell_formula_noSheet _ _ _ _ hf hsh] at hp; simp at hp
            | some shd =>
              rw [processCell_formula _ _ _ _ _ _ _ rfl hsh hv hst] at hp
              cases hp
              intro a ha
              rw [mem_keys_dinsert] at ha ⊢
              rcases ha with ha | ha
              · exact Or.inl ha
              · exact Or.inr (hsub a ha)
        · by_cases h2 : c.value = .vStr ""
          · rw [processCell_skip _ _ _ _ (Or.inr h2)] at hp
            cases hp
            exact hsub
          · rw [processCell_literal _ _ _ _ h0 (by simpa using hf) h2] at hp
            cases hp
            intro a ha
            rw [mem_keys_dinsert]
            exact Or.inr (hsub a ha)

theorem scanCells_keys_from (sec : Option Workbook) (sname : String) :
    ∀ (cells : List Cell) (st st₁ : LoopSt) (e : Option RunErr),
      scanCells sec sname cells st = (st₁, e) →
      ∀ a, (a ∈ keysOf st₁.values ∨ a ∈ keysOf st₁.formulas) →
        (a ∈ keysOf st.values ∨ a ∈ keysOf st.formulas) ∨
          ∃ c, c ∈ cells ∧ cell_addr c = a ∧ nonEmptyVal c.value = true := by
  intro cells
  induction cells with
  | nil =>
    intro st st₁ e h a ha
    rw [scanCells_nil] at h
    cases h
    exact Or.inl ha
  | cons c cs ih =>
    intro st st₁ e h a ha
    rcases hp : processCell sec sname st c with ⟨st₂, e₂⟩
    have hstep : ∀ b, (b ∈ keysOf st₂.values ∨ b ∈ keysOf st₂.formulas) →
        (b ∈ keysOf st.values ∨ b ∈ keysOf st.formulas) ∨
          (cell_addr c = b ∧ nonEmptyVal c.value = true) := by
      intro b hb
      by_cases h0 : c.value = .vNone
      · rw [processCell_skip _ _ _ _ (Or.inl h0)] at hp
        cases hp
        exact Or.inl hb
      · by_cases hf : isFormulaVal c.value = true
        · cases sec with
          | none =>
            rw [processCell_formula_noSec _ _ _ hf] at hp
            cases hp
            rcases hb with hb | hb
            · exact Or.inl (Or.inl hb)
            · rw [mem_keys_dinsert] at hb
              rcases hb with rfl | hb
              · exact Or.inr ⟨rfl, nonEmptyVal_of_formula hf⟩
              · exact Or.inl (Or.inr hb)
          | some wbd =>
            obtain ⟨s, hv, hst⟩ := isFormulaVal_eq_true hf
            cases hsh : findSheet wbd sname with
            | none =>
              rw [processCell_formula_noSheet _ _ _ _ hf hsh] at hp
              cases hp
              rcases hb with hb | hb
              · exact Or.inl (Or.inl hb)
              · rw [mem_keys_dinsert] at hb
                rcases hb with rfl | hb
                · exact Or.inr ⟨rfl, nonEmptyVal_of_formula hf⟩
                · exact Or.inl (Or.inr hb)
            | some shd =>
              rw [processCell_formula _ _ _ _ _ _ _ rfl hsh hv hst] at hp
              cases hp
              rcases hb with hb | hb <;> rw [mem_keys_dinsert] at hb <;>
                rcases hb with rfl | hb
              · exact Or.inr ⟨rfl, nonEmptyVal_of_formula hf⟩
              · exact Or.inl (Or.inl hb)
              · exact Or.inr ⟨rfl, nonEmptyVal_of_formula hf⟩
              · exact Or.inl (Or.inr hb)
        · by_cases h2 : c.value = .vStr ""
          · rw [processCell_skip _ _ _ _ (Or.inr h2)] at hp
            cases hp
            exact Or.inl hb
          · rw [processCell_literal _ _ _ _ h0 (by simpa using hf) h2] at hp
            cases hp
            rcases hb with hb | hb
            · rw [mem_keys_dinsert] at hb
              rcases hb with rfl | hb
              · exact Or.inr ⟨rfl, by simp [nonEmptyVal, h0, h2]⟩
              · exact Or.inl (Or.inl hb)
            · exact Or.inl (Or.inr hb)
    cases e₂ with
    | some err =>
      rw [scanCells_cons_err _ _ _ _ _ _ _ hp] at h
      cases h
      rcases hstep a ha with hin | ⟨haddr, hne⟩
      · exact Or.inl hin
      · exact Or.inr ⟨c, by simp, haddr, hne⟩
    | none =>
      rw [scanCells_cons_ok _ _ _ _ _ _ hp] at h
      rcases ih st₂ st₁ e h a ha with hin | ⟨c₂, hc₂, haddr, hne⟩
      · rcases hstep a hin with hin₂ | ⟨haddr, hne⟩
        · exact Or.inl hin₂
        · exact Or.inr ⟨c, by simp, haddr, hne⟩
      · exact Or.inr ⟨c₂, by simp [hc₂], haddr, hne⟩

/-! ### Report-section lemmas -/

theorem formulaSection_cons (p : String × String) (rest : List (String × String))
    (values : List (String × CVal)) :
    formulaSection (p :: rest) values =
      (Line.formulaEntry p.1 p.2 ::
        (match dlookup p.1 values with
         | some v => [Line.valueLine v]
         | none => [])) ++ formulaSection rest values := rfl

theorem mem_keywordSection (values : List (String × CVal)) (p : String × CVal)
    (hmem : p ∈ values) (hkw : keywordMatched p.2 = true) :
    Line.keywordEntry p.1 p.2 ∈ keywordSection values := by
  unfold keywordSection
  exact List.mem_map_of_mem _ (List.mem_filter.mpr ⟨hmem, hkw⟩)

theorem keywordSection_addr (values : List (String × CVal)) (a : String)
    (h : a ∈ (keywordSection values).filterMap lineAddr) : a ∈ keysOf values := by
  rw [List.mem_filterMap] at h
  obtain ⟨x, hx, hax⟩ := h
  unfold keywordSection at hx
  rw [List.mem_map] at hx
  obtain ⟨p, hp, rfl⟩ := hx
  simp [lineAddr] at hax
  subst hax
  exact List.mem_map_of_mem _ (List.mem_filter.mp hp).1

theorem formulaSection_addr (formulas : List (String × String)) (values : List (String × CVal))
    (a : String) (h : a ∈ (formulaSection formulas values).filterMap lineAddr) :
    a ∈ keysOf formulas := by
  induction formulas with
  | nil => simp [formulaSection] at h
  | cons p rest ih =>
    rw [formulaSection_cons, List.filterMap_append] at h
    rcases List.mem_append.mp h with h | h
    · cases hd : dlookup p.1 values with
      | some v =>
        rw [hd] at h
        simp [lineAddr] at h
        simp [h]
      | none =>
        rw [hd] at h
        simp [lineAddr] at h
        simp [h]
    · exact List.mem_cons_of_mem _ (ih h)

theorem mem_formulaSection_shape (formulas : List (String × String))
    (values : List (String × CVal)) (x : Line) (h : x ∈ formulaSection formulas values) :
    (∃ a f, x = Line.formulaEntry a f) ∨ ∃ v, x = Line.valueLine v := by
  induction formulas with
  | nil => simp [formulaSection] at h
  | cons p rest ih =>
    rw [formulaSection_cons] at h
    rcases List.mem_append.mp h with h | h
    · rcases List.mem_cons.mp h with rfl | h
      · exact Or.inl ⟨p.1, p.2, rfl⟩
      · cases hd : dlookup p.1 values with
        | some v =>
          rw [hd] at h
          simp at h
          exact Or.inr ⟨v, h⟩
        | none => rw [hd] at h; simp at h
    · exact ih h

theorem formulaSection_chunk (formulas : List (String × String))
    (values : List (String × CVal)) (addr f : String) (v : CVal)
    (hf : (addr, f) ∈ formulas) (hv : dlookup addr values = some v) :
    [Line.formulaEntry addr f, Line.valueLine v].IsInfix (formulaSection formulas values) := by
  induction formulas with
  | nil => cases hf
  | cons p rest ih =>
    rcases List.mem_cons.mp hf with heq | hf₂
    · subst heq
      rw [formulaSection_cons, hv]
      exact ⟨[], formulaSection rest values, rfl⟩
    · obtain ⟨s, t, hst⟩ := ih hf₂
      rw [formulaSection_cons]
      refine ⟨(Line.formulaEntry p.1 p.2 ::
        (match dlookup p.1 values with
         | some w => [Line.valueLine w]
         | none => [])) ++ s, t, ?_⟩
      rw [List.append_assoc, List.append_assoc] at *
      rw [hst]

theorem sheetSections_addr (st : LoopSt) (a : String)
    (h : a ∈ (sheetSections st).filterMap lineAddr) :
    a ∈ keysOf st.values ∨ a ∈ keysOf st.formulas := by
  unfold sheetSections at h
  rw [List.filterMap_append, List.filterMap_append, List.filterMap_append] at h
  rcases List.mem_append.mp h with h | h
  · rcases List.mem_append.mp h with h | h
    · rcases List.mem_append.mp h with h | h
      · simp [lineAddr] at h
      · exact Or.inl (keywordSection_addr st.values a h)
    · simp [lineAddr] at h
  · exact Or.inr (formulaSection_addr st.formulas st.values a h)

theorem filterMap_headerName_nil (l : List Line) (h : ∀ x ∈ l, headerName x = none) :
    l.filterMap headerName = [] := by
  induction l with
  | nil => rfl
  | cons x xs ih =>
    rw [List.filterMap_cons, h x (by simp)]
    exact ih (fun y hy => h y (by simp [hy]))

theorem keywordSection_headers (values : List (String × CVal)) :
    (keywordSection values).filterMap headerName = [] := by
  refine filterMap_headerName_nil _ ?_
  intro x hx
  unfold keywordSection at hx
  rw [List.mem_map] at hx
  obtain ⟨p, _, rfl⟩ := hx
  rfl

theorem formulaSection_headers (formulas : List (String × String))
    (values : List (String × CVal)) :
    (formulaSection formulas values).filterMap headerName = [] := by
  refine filterMap_headerName_nil _ ?_
  intro x hx
  rcases mem_formulaSection_shape formulas values x hx with ⟨a, f, rfl⟩ | ⟨v, rfl⟩ <;> rfl

theorem sheetSections_headers (st : LoopSt) :
    (sheetSections st).filterMap headerName = [] := by
  unfold sheetSections
  rw [List.filterMap_append, List.filterMap_append, List.filterMap_append]
  rw [keywordSection_headers, formulaSection_headers]
  rfl

/-! ### Sheet-loop and whole-run lemmas -/

theorem runSheets_nil (sec : Option Workbook) (out : List Line) (acq : Nat) :
    runSheets sec [] out acq = (out, acq, none) := rfl

theorem runSheets_cons_ok (sec : Option Workbook) (sh : Sheet) (rest : List Sheet)
    (out : List Line) (acq : Nat) (st : LoopSt)
    (hscan : scanCells sec sh.name sh.rows.flatten ⟨[], [], 0⟩ = (st, none)) :
    runSheets sec (sh :: rest) out acq =
      runSheets sec rest
        (out ++ [Line.sheetHeader sh.name, Line.dashDelim] ++ sheetSections st ++ [Line.eqDelim])
        (acq + st.acquired) := by
  simp [runSheets, hscan]

theorem runSheets_cons_err (sec : Option Workbook) (sh : Sheet) (rest : List Sheet)
    (out : List Line) (acq : Nat) (st : LoopSt) (e : RunErr)
    (hscan : scanCells sec sh.name sh.rows.flatten ⟨[], [], 0⟩ = (st, some e)) :
    runSheets sec (sh :: rest) out acq =
      (out ++ [Line.sheetHeader sh.name, Line.dashDelim], acq + st.acquired, some e) := by
  simp [runSheets, hscan]

theorem runSheets_headers (sec : Option Workbook) :
    ∀ (sheets : List Sheet) (out : List Line) (acq : Nat) (out₁ : List Line) (acq₁ : Nat),
      runSheets sec sheets out acq = (out₁, acq₁, none) →
      out₁.filterMap headerName = out.filterMap headerName ++ sheets.map Sheet.name := by
  intro sheets
  induction sheets with
  | nil =>
    intro out acq out₁ acq₁ h
    rw [runSheets_nil] at h
    cases h
    simp
  | cons sh rest ih =>
    intro out acq out₁ acq₁ h
    rcases hscan : scanCells sec sh.name sh.rows.flatten ⟨[], [], 0⟩ with ⟨st, e⟩
    cases e with
    | some err => rw [runSheets_cons_err _ _ _ _ _ _ _ hscan] at h; simp at h
    | none =>
      rw [runSheets_cons_ok _ _ _ _ _ _ hscan] at h
      rw [ih _ _ _ _ h]
      rw [List.filterMap_append, List.filterMap_append, List.filterMap_append,
        sheetSections_headers]
      simp [headerName]

theorem runSheets_acquired (sec : Option Workbook) :
    ∀ (sheets : List Sheet) (out : List Line) (acq : Nat) (out₁ : List Line) (acq₁ : Nat),
      runSheets sec sheets out acq = (out₁, acq₁, none) →
      acq₁ = acq + (sheets.map countFormulaCells).sum := by
  intro sheets
  induction sheets with
  | nil =>
    intro out acq out₁ acq₁ h
    rw [runSheets_nil] at h
    cases h
    simp
  | cons sh rest ih =>
    intro out acq out₁ acq₁ h
    rcases hscan : scanCells sec sh.name sh.rows.flatten ⟨[], [], 0⟩ with ⟨st, e⟩
    cases e with
    | some err => rw [runSheets_cons_err _ _ _ _ _ _ _ hscan] at h; simp at h
    | none =>
      rw [runSheets_cons_ok _ _ _ _ _ _ hscan] at h
      have hst : st.acquired = List.countP (fun c => isFormulaVal c.value) sh.rows.flatten := by
        simpa using scanCells_acquired sec sh.name _ _ _ hscan
      rw [ih _ _ _ _ h, hst, List.map_cons, List.sum_cons]
      unfold countFormulaCells
      omega

theorem runSheets_no_err (wbd : Workbook) :
    ∀ (sheets : List Sheet),
      (∀ sh ∈ sheets, ∃ shd, findSheet wbd sh.name = some shd) →
      ∀ (out : List Line) (acq : Nat),
        (runSheets (some wbd) sheets out acq).2.2 = none := by
  intro sheets
  induction sheets with
  | nil => intro _ out acq; rw [runSheets_nil]
  | cons sh rest ih =>
    intro hall out acq
    obtain ⟨shd, hsh⟩ := hall sh (by simp)
    rcases hscan : scanCells (some wbd) sh.name sh.rows.flatten ⟨[], [], 0⟩ with ⟨st, e⟩
    have he : e = none := by
      have := scanCells_no_err wbd shd sh.name hsh sh.rows.flatten ⟨[], [], 0⟩
      rw [hscan] at this
      exact this
    subst he
    rw [runSheets_cons_ok _ _ _ _ _ _ hscan]
    exact ih (fun s hs => hall s (by simp [hs])) _ _

theorem runScript_noPrimary (env : Env) (h : env.primary = none) :
    runScript env = ⟨[], some .sourceUnavailable, 0, 0⟩ := by
  simp [runScript, h]

theorem runScript_ok (env : Env) (wb : Workbook) (out : List Line) (acq : Nat)
    (hp : env.primary = some wb)
    (hr : runSheets env.secondary wb.sheets
      [Line.sheetList (wb.sheets.map Sheet.name), Line.eqDelim] 1 = (out, acq, none)) :
    runScript env = ⟨out, none, acq, 1⟩ := by
  simp [runScript, hp, hr]

theorem runScript_err (env : Env) (wb : Workbook) (out : List Line) (acq : Nat) (e : RunErr)
    (hp : env.primary = some wb)
    (hr : runSheets env.secondary wb.sheets
      [Line.sheetList (wb.sheets.map Sheet.name), Line.eqDelim] 1 = (out, acq, some e)) :
    runScript env = ⟨out, some e, acq, 0⟩ := by
  simp [runScript, hp, hr]

/-! ### Grid-shape lemmas -/

theorem lexLtCell_ne {a b : Cell} (h : lexLtCell a b) : a ≠ b := by
  intro he
  subst he
  rcases h with h | ⟨_, h⟩ <;> omega

theorem rowOk_spec (r : Nat) :
    ∀ (cs : List Cell) (j : Nat), rowOk r j cs = true →
      cs.Pairwise lexLtCell ∧ ∀ c ∈ cs, c.row = r ∧ j ≤ c.col := by
  intro cs
  induction cs with
  | nil => intro j _; simp
  | cons c cs ih =>
    intro j h
    rw [rowOk, Bool.and_eq_true, Bool.and_eq_true, decide_eq_true_iff, decide_eq_true_iff] at h
    obtain ⟨⟨hr, hc⟩, hrest⟩ := h
    obtain ⟨hpw, hall⟩ := ih (j + 1) hrest
    refine ⟨List.Pairwise.cons ?_ hpw, ?_⟩
    · intro c₂ hc₂
      obtain ⟨hr₂, hc₂c⟩ := hall c₂ hc₂
      exact Or.inr ⟨hr.trans hr₂.symm, by omega⟩
    · intro c₂ hc₂
      rcases List.mem_cons.mp hc₂ with rfl | hc₂
      · exact ⟨hr, by omega⟩
      · obtain ⟨hr₂, hc₂c⟩ := hall c₂ hc₂
        exact ⟨hr₂, by omega⟩

theorem gridOk_spec :
    ∀ (rows : List (List Cell)) (i : Nat), gridOk i rows = true →
      rows.flatten.Pairwise lexLtCell ∧ ∀ c ∈ rows.flatten, i ≤ c.row := by
  intro rows
  induction rows with
  | nil => intro i _; simp
  | cons row rest ih =>
    intro i h
    rw [gridOk, Bool.and_eq_true] at h
    obtain ⟨hrow, hrest⟩ := h
    obtain ⟨hpw₁, hall₁⟩ := rowOk_spec i row 1 hrow
    obtain ⟨hpw₂, hall₂⟩ := ih (i + 1) hrest
    rw [List.flatten_cons]
    constructor
    · rw [List.pairwise_append]
      refine ⟨hpw₁, hpw₂, ?_⟩
      intro a ha b hb
      have h₁ := (hall₁ a ha).1
      have h₂ := hall₂ b hb
      exact Or.inl (by omega)
    · intro c hc
      rcases List.mem_append.mp hc with hc | hc
      · exact le_of_eq (hall₁ c hc).1.symm
      · have := hall₂ c hc
        omega

/-! ### Claim theorems -/

/-- Claim C1, counterexample: the script keyword-matches the entries of the
`values` dict, and for a formula cell `values[addr]` is the cached calculated
value, not the raw formula text.  Here the single cell `A1 = "=TOTAL(A2)"` has
raw text containing the keyword `total`, the run succeeds, yet the
keyword-matched set is empty — refuting "a formula cell whose raw formula text
contains a keyword is keyword-matched". -/
theorem keyword_match_raw_formula_cex :
    ("total" ∈ keywords) ∧
    strContains "total" (strToLower (rawText (CVal.vStr "=TOTAL(A2)"))) = true ∧
    (runScript envRawKeyword).err = none ∧
    (runScript envRawKeyword).output.filter isKeywordLine = [] := by
  refine ⟨by decide, by decide, rfl, rfl⟩

/-- Claim C1, amended: the keyword check is applied to the recorded value — the
raw value for a literal cell, but the cached resolved value for a formula cell.
Every `values` entry whose recorded value is textual and contains a keyword
appears in the keyword-matched section; and for a formula cell the recorded
value is `lookupAddr` of the data-only view, not the raw formula text. -/
theorem keyword_match_recorded_value :
    (∀ (st : LoopSt) (p : String × CVal), p ∈ st.values → keywordMatched p.2 = true →
        Line.keywordEntry p.1 p.2 ∈ sheetSections st) ∧
    (∀ (sec : Option Workbook) (sname : String) (st : LoopSt) (c : Cell)
        (wbd : Workbook) (shd : Sheet) (s : String),
        sec = some wbd → findSheet wbd sname = some shd →
        c.value = .vStr s → startsWithMarker s = true →
        (processCell sec sname st c).1.values =
          dinsert (cell_addr c) (lookupAddr shd (cell_addr c)) st.values) := by
  constructor
  · intro st p hmem hkw
    have h := mem_keywordSection st.values p hmem hkw
    unfold sheetSections
    exact List.mem_append.mpr (Or.inl (List.mem_append.mpr (Or.inl
      (List.mem_append.mpr (Or.inr h)))))
  · intro sec sname st c wbd shd s hsec hsh hv hst
    rw [processCell_formula sec sname st c wbd shd s hsec hsh hv hst]

/-- Claim C1, witness for the amended theorem at a concrete literal entry. -/
theorem keyword_match_recorded_value_witness :
    Line.keywordEntry "A1" (CVal.vStr "tank diameter") ∈
      sheetSections ⟨[], [("A1", CVal.vStr "tank diameter")], 0⟩ :=
  keyword_match_recorded_value.1 ⟨[], [("A1", CVal.vStr "tank diameter")], 0⟩
    ("A1", CVal.vStr "tank diameter") (by simp) (by decide)

/-- Claim C2, counterexample: when the primary load succeeds but the per-formula
secondary `load_workbook(data_only=True)` fails (the file vanished mid-scan),
the run terminates with `SourceUnavailable` — yet sheet `S1`'s keyword entry had
already been printed, so report entries are emitted before termination. -/
theorem partial_output_on_secondary_failure_cex :
    (runScript envSecondaryGone).err = some .sourceUnavailable ∧
    Line.keywordEntry "A1" (CVal.vStr "tank diameter") ∈
      (runScript envSecondaryGone).output := by
  exact ⟨rfl, by decide⟩

/-- Claim C2, amended: only a failure of the *primary* open guarantees that the
program terminates with `SourceUnavailable` having produced no output at all; a
secondary-view failure mid-scan can leave partial report output (see the
counterexample). -/
theorem primary_failure_no_output (env : Env) (h : env.primary = none) :
    runScript env = ⟨[], some .sourceUnavailable, 0, 0⟩ :=
  runScript_noPrimary env h

/-- Claim C2, witness for the amended theorem. -/
theorem primary_failure_no_output_witness :
    runScript ⟨none, none⟩ = ⟨[], some .sourceUnavailable, 0, 0⟩ :=
  primary_failure_no_output ⟨none, none⟩ rfl

/-- Claim C3: a formula cell whose resolved-value lookup yields `None` is not an
error: the cell loop records the formula and stores `None` as its value, the
report prints the formula entry immediately followed by a `-> Value: None`
line, and a whole run whose secondary view is available for every sheet
completes with no error. -/
theorem formula_without_cached_value_ok :
    (∀ (sec : Option Workbook) (sname : String) (st : LoopSt) (c : Cell)
        (wbd : Workbook) (shd : Sheet) (s : String),
        sec = some wbd → findSheet wbd sname = some shd →
        c.value = .vStr s → startsWithMarker s = true →
        lookupAddr shd (cell_addr c) = .vNone →
        processCell sec sname st c =
          (⟨dinsert (cell_addr c) s st.formulas, dinsert (cell_addr c) .vNone st.values,
            st.acquired + 1⟩, none)) ∧
    (∀ (formulas : List (String × String)) (values : List (String × CVal)) (addr f : String),
        (addr, f) ∈ formulas → dlookup addr values = some .vNone →
        [Line.formulaEntry addr f, Line.valueLine .vNone].IsInfix
          (formulaSection formulas values)) ∧
    (∀ (env : Env) (wb wbd : Workbook),
        env.primary = some wb → env.secondary = some wbd →
        (∀ sh ∈ wb.sheets, ∃ shd, findSheet wbd sh.name = some shd) →
        (runScript env).err = none) := by
  refine ⟨?_, ?_, ?_⟩
  · intro sec sname st c wbd shd s hsec hsh hv hst hlook
    rw [processCell_formula sec sname st c wbd shd s hsec hsh hv hst, hlook]
  · intro formulas values addr f hf hv
    exact formulaSection_chunk formulas values addr f _ hf hv
  · intro env wb wbd hp hs hall
    rcases hr : runSheets env.secondary wb.sheets
      [Line.sheetList (wb.sheets.map Sheet.name), Line.eqDelim] 1 with ⟨out, acq, e⟩
    have he : e = none := by
      have h₂ := runSheets_no_err wbd wb.sheets hall
        [Line.sheetList (wb.sheets.map Sheet.name), Line.eqDelim] 1
      rw [← hs] at h₂
      rw [hr] at h₂
      exact h₂
    subst he
    rw [runScript_ok env wb out acq hp hr]

/-- Claim C3, witness: the formula cell `A1 = "=B1*2"` with no cached value. -/
theorem formula_without_cached_value_ok_witness :
    processCell (some wbOneFormulaNoVal) "S" ⟨[], [], 0⟩ ⟨1, 1, CVal.vStr "=B1*2"⟩ =
      (⟨dinsert "A1" "=B1*2" [], dinsert "A1" CVal.vNone [], 1⟩, none) :=
  formula_without_cached_value_ok.1 (some wbOneFormulaNoVal) "S" ⟨[], [], 0⟩
    ⟨1, 1, CVal.vStr "=B1*2"⟩ wbOneFormulaNoVal ⟨"S", [[⟨1, 1, CVal.vNone⟩]]⟩ "=B1*2"
    rfl rfl rfl (by decide) rfl

/-- Claim C4, counterexample: a successful run over a workbook with one formula
cell acquires two workbook handles (the primary plus one data-only reload) but
closes only the primary — the secondary handle is never released. -/
theorem secondary_handle_leak_cex :
    (runScript envOneFormula).err = none ∧
    (runScript envOneFormula).acquired = 2 ∧
    (runScript envOneFormula).closed = 1 ∧
    ¬ (runScript envOneFormula).closed = (runScript envOneFormula).acquired := by
  decide

/-- Claim C4, amended: on a successful run exactly the primary handle is closed
(`wb.close()` at the end), while `1 + number of formula cells` handles were
acquired — the per-formula secondary handles are never closed; on a failing run
no handle is closed at all. -/
theorem handle_close_discipline (env : Env) :
    ((runScript env).err = none → ∀ wb, env.primary = some wb →
      (runScript env).closed = 1 ∧
      (runScript env).acquired = 1 + (wb.sheets.map countFormulaCells).sum) ∧
    ((runScript env).err ≠ none → (runScript env).closed = 0) := by
  cases hp : env.primary with
  | none =>
    rw [runScript_noPrimary env hp]
    exact ⟨fun he => by simp at he, fun _ => rfl⟩
  | some wb =>
    rcases hr : runSheets env.secondary wb.sheets
      [Line.sheetList (wb.sheets.map Sheet.name), Line.eqDelim] 1 with ⟨out, acq, e⟩
    cases e with
    | some err =>
      rw [runScript_err env wb out acq err hp hr]
      exact ⟨fun he => by simp at he, fun _ => rfl⟩
    | none =>
      rw [runScript_ok env wb out acq hp hr]
      constructor
      · intro _ wb₂ hp₂
        injection hp₂ with hwb
        subst hwb
        refine ⟨rfl, ?_⟩
        have hacq := runSheets_acquired env.secondary wb.sheets _ 1 out acq hr
        simpa using hacq
      · intro he
        simp at he

/-- Claim C4, witness for the amended theorem. -/
theorem handle_close_discipline_witness :
    (runScript envOneFormula).closed = 1 ∧
    (runScript envOneFormula).acquired = 1 + ((wbOneFormula.sheets.map countFormulaCells).sum) :=
  (handle_close_discipline envOneFormula).1 (by decide) wbOneFormula rfl

/-- Claim C5: every non-empty cell content (neither `None` nor the empty string)
receives exactly one of the two classifications Formula Cell / Literal Cell. -/
theorem classification_exclusive_total (v : CVal) (h : nonEmptyVal v = true) :
    (classify v = some .formulaCell ∧ classify v ≠ some .literalCell) ∨
    (classify v = some .literalCell ∧ classify v ≠ some .formulaCell) := by
  by_cases hf : isFormulaVal v = true
  · left
    have hc : classify v = some .formulaCell :=
      (classify_formula_iff v).mpr (isFormulaVal_eq_true hf)
    rw [hc]
    exact ⟨rfl, by decide⟩
  · right
    have hc : classify v = some .literalCell :=
      (classify_literal_iff v).mpr ⟨h, by simpa using hf⟩
    rw [hc]
    exact ⟨rfl, by decide⟩

/-- Claim C5, witness at a concrete formula string. -/
theorem classification_exclusive_total_witness :
    (classify (CVal.vStr "=B1*2") = some .formulaCell ∧
      classify (CVal.vStr "=B1*2") ≠ some .literalCell) ∨
    (classify (CVal.vStr "=B1*2") = some .literalCell ∧
      classify (CVal.vStr "=B1*2") ≠ some .formulaCell) :=
  classification_exclusive_total (CVal.vStr "=B1*2") (by decide)

/-- Claim C6: cells whose content is `None` or the empty string are skipped with
no state change, and every address appearing on a report entry line of a sheet's
sections corresponds to a cell of that sheet that was non-empty at scan time. -/
theorem report_addresses_nonempty :
    (∀ (sec : Option Workbook) (sname : String) (st : LoopSt) (c : Cell),
        c.value = .vNone ∨ c.value = .vStr "" →
        processCell sec sname st c = (st, none)) ∧
    (∀ (sec : Option Workbook) (sname : String) (cells : List Cell) (st₁ : LoopSt),
        scanCells sec sname cells ⟨[], [], 0⟩ = (st₁, none) →
        ∀ a, a ∈ (sheetSections st₁).filterMap lineAddr →
          ∃ c, c ∈ cells ∧ cell_addr c = a ∧ nonEmptyVal c.value = true) := by
  constructor
  · exact processCell_skip
  · intro sec sname cells st₁ h a ha
    have hkeys := sheetSections_addr st₁ a ha
    rcases scanCells_keys_from sec sname cells ⟨[], [], 0⟩ st₁ none h a hkeys with hin | hc
    · simp at hin
    · exact hc

/-- Claim C6, witness: the single literal cell `A1` is the source of the only
reported address. -/
theorem report_addresses_nonempty_witness :
    ∃ c, c ∈ [(⟨1, 1, CVal.vStr "tank diameter"⟩ : Cell)] ∧ cell_addr c = "A1" ∧
      nonEmptyVal c.value = true :=
  report_addresses_nonempty.2 none "S" [⟨1, 1, CVal.vStr "tank diameter"⟩]
    ⟨[], [("A1", CVal.vStr "tank diameter")], 0⟩ rfl "A1" (by decide)

/-- Claim C7: a cell is a Formula Cell iff its content is a string starting with
`=`; in that case the raw text is recorded in the `formulas` dict; any other
non-empty content is a Literal Cell whose raw value is recorded as-is in
`values` (and nothing is added to `formulas`). -/
theorem formula_iff_marker :
    (∀ v : CVal, classify v = some .formulaCell ↔
        ∃ s, v = .vStr s ∧ startsWithMarker s = true) ∧
    (∀ v : CVal, classify v = some .literalCell ↔
        nonEmptyVal v = true ∧ isFormulaVal v = false) ∧
    (∀ (sname : String) (st : LoopSt) (c : Cell) (wbd : Workbook) (shd : Sheet) (s : String),
        findSheet wbd sname = some shd → c.value = .vStr s → startsWithMarker s = true →
        (processCell (some wbd) sname st c).1.formulas =
          dinsert (cell_addr c) s st.formulas) ∧
    (∀ (sec : Option Workbook) (sname : String) (st : LoopSt) (c : Cell),
        classify c.value = some .literalCell →
        (processCell sec sname st c).1.values = dinsert (cell_addr c) c.value st.values ∧
        (processCell sec sname st c).1.formulas = st.formulas) := by
  refine ⟨classify_formula_iff, classify_literal_iff, ?_, ?_⟩
  · intro sname st c wbd shd s hsh hv hst
    rw [processCell_formula (some wbd) sname st c wbd shd s rfl hsh hv hst]
  · intro sec sname st c hcl
    obtain ⟨hne, hf⟩ := (classify_literal_iff _).mp hcl
    have hne₂ : c.value ≠ .vNone ∧ c.value ≠ .vStr "" := by
      simpa [nonEmptyVal, Bool.and_eq_true] using hne
    rw [processCell_literal sec sname st c hne₂.1 hf hne₂.2]
    exact ⟨rfl, rfl⟩

/-- Claim C7, witness: recording of a concrete formula cell. -/
theorem formula_iff_marker_witness :
    (processCell (some wbOneFormulaData) "S" ⟨[], [], 0⟩ ⟨1, 1, CVal.vStr "=B1*2"⟩).1.formulas =
      dinsert "A1" "=B1*2" [] :=
  formula_iff_marker.2.2.1 "S" ⟨[], [], 0⟩ ⟨1, 1, CVal.vStr "=B1*2"⟩ wbOneFormulaData
    ⟨"S", [[⟨1, 1, CVal.vNum 24⟩]]⟩ "=B1*2" rfl rfl (by decide)

/-- Claim C8: the scan is a deterministic function of the loaded workbook views;
two consecutive runs over the same unmodified sources produce identical results
(the embedding is stateless exactly as the script is — the dicts are rebuilt per
sheet and nothing persists across runs). -/
theorem scan_deterministic (env : Env) :
    (runTwice env).1 = (runTwice env).2 ∧
    (runTwice env).1.output = (runTwice env).2.output :=
  ⟨rfl, rfl⟩

/-- Claim C9: on a well-formed grid (the shape `iter_rows` yields) the cell
sequence visited by the loop is strictly increasing in row-major order — so
every cell is visited exactly once, row then column — and on a successful run
the per-sheet report sections appear in workbook sheet order. -/
theorem row_major_and_sheet_order :
    (∀ sh : Sheet, wellFormedSheet sh = true →
        sh.rows.flatten.Pairwise lexLtCell ∧ sh.rows.flatten.Nodup) ∧
    (∀ (env : Env) (wb : Workbook), env.primary = some wb → (runScript env).err = none →
        (runScript env).output.filterMap headerName = wb.sheets.map Sheet.name) := by
  constructor
  · intro sh hwf
    obtain ⟨hpw, _⟩ := gridOk_spec sh.rows 1 hwf
    exact ⟨hpw, hpw.imp (fun h => lexLtCell_ne h)⟩
  · intro env wb hp he
    rcases hr : runSheets env.secondary wb.sheets
      [Line.sheetList (wb.sheets.map Sheet.name), Line.eqDelim] 1 with ⟨out, acq, e⟩
    cases e with
    | some err =>
      rw [runScript_err env wb out acq err hp hr] at he
      simp at he
    | none =>
      rw [runScript_ok env wb out acq hp hr]
      have hh := runSheets_headers env.secondary wb.sheets _ 1 out acq hr
      simpa [headerName] using hh

/-- Claim C9, witness: a concrete 2-row grid and a concrete successful run. -/
theorem row_major_and_sheet_order_witness :
    ((Sheet.mk "W" [[⟨1, 1, CVal.vNum 1⟩, ⟨1, 2, CVal.vNum 2⟩],
        [⟨2, 1, CVal.vNum 3⟩]]).rows.flatten.Pairwise lexLtCell ∧
      (Sheet.mk "W" [[⟨1, 1, CVal.vNum 1⟩, ⟨1, 2, CVal.vNum 2⟩],
        [⟨2, 1, CVal.vNum 3⟩]]).rows.flatten.Nodup) ∧
    (runScript envOneFormula).output.filterMap headerName = wbOneFormula.sheets.map Sheet.name :=
  ⟨row_major_and_sheet_order.1
      (Sheet.mk "W" [[⟨1, 1, CVal.vNum 1⟩, ⟨1, 2, CVal.vNum 2⟩], [⟨2, 1, CVal.vNum 3⟩]])
      (by decide),
    row_major_and_sheet_order.2 envOneFormula wbOneFormula rfl (by decide)⟩

/-- Claim C10: after a successful cell loop started from empty dicts, every key
of the `formulas` dict is also a key of the `values` dict, and the formula
report section prints, for every formula entry, a resolved-value line right
after it. -/
theorem formulas_subset_values (sec : Option Workbook) (sname : String) (cells : List Cell)
    (st₁ : LoopSt) (h : scanCells sec sname cells ⟨[], [], 0⟩ = (st₁, none)) :
    (∀ a, a ∈ keysOf st₁.formulas → a ∈ keysOf st₁.values) ∧
    (∀ p ∈ st₁.formulas, ∃ v, dlookup p.1 st₁.values = some v ∧
        [Line.formulaEntry p.1 p.2, Line.valueLine v].IsInfix
          (formulaSection st₁.formulas st₁.values)) := by
  have hsub := scanCells_keys_sub sec sname cells ⟨[], [], 0⟩ st₁ h (by simp)
  refine ⟨hsub, ?_⟩
  intro p hp
  have hkey : p.1 ∈ keysOf st₁.formulas := List.mem_map_of_mem _ hp
  obtain ⟨v, hv⟩ := dlookup_isSome_of_mem_keys p.1 st₁.values (hsub p.1 hkey)
  exact ⟨v, hv, formulaSection_chunk st₁.formulas st₁.values p.1 p.2 v (by simpa using hp) hv⟩

/-- Claim C10, witness: one formula cell with cached value 24. -/
theorem formulas_subset_values_witness :
    (∀ a, a ∈ keysOf [("A1", "=B1*2")] → a ∈ keysOf [("A1", CVal.vNum 24)]) ∧
    (∀ p ∈ [("A1", "=B1*2")], ∃ v, dlookup p.1 [("A1", CVal.vNum 24)] = some v ∧
        [Line.formulaEntry p.1 p.2, Line.valueLine v].IsInfix
          (formulaSection [("A1", "=B1*2")] [("A1", CVal.vNum 24)])) :=
  formulas_subset_values (some wbOneFormulaData) "S" [⟨1, 1, CVal.vStr "=B1*2"⟩]
    ⟨[("A1", "=B1*2")], [("A1", CVal.vNum 24)], 1⟩ rfl

end ExcelScan
